import Mathlib

/-!
Verification development for the dataset-download scripts, centred on
`download_food101.py` (layout-normalizer: `iter_dirs_upto_depth`,
`find_images_meta`, the archive classification and extraction policy of
`main`, finalization) and `utility_functions.py` (`utils_image_find`).

Python strings are embedded as `List Char` (a Python `str` is a sequence of
code points); filesystem paths as lists of name components. The filesystem
itself is an oracle structure `FS` giving directory listings, file/dir
tests, canonical-path resolution (`Path.resolve`) and existence tests.
-/

namespace Food101

/-- A file or directory name: one path component, as a sequence of chars. -/
abbrev Name := List Char

/-- A filesystem path, as its list of name components from the root. Two
paths are equal exactly when their component lists are; this mirrors
`pathlib.PurePath` equality, which compares the textual path, not the
resolved one. -/
abbrev DirPath := List Name

/-- Filesystem oracle: everything the scripts observe about the disk. -/
structure FS where
  /-- Names listed by `iterdir()` / `glob("*")` on a directory, in order. -/
  entries : DirPath → List Name
  /-- Whether listing the directory succeeds (`False` models the raised
  `PermissionError`-like exception caught by `iter_dirs_upto_depth`). -/
  listOk : DirPath → Bool
  /-- `Path.is_dir()`. -/
  isDir : DirPath → Bool
  /-- `Path.is_file()`. -/
  isFile : DirPath → Bool
  /-- `Path.resolve()`: canonical path after symlink resolution. -/
  resolve : DirPath → DirPath
  /-- `Path.exists()`. -/
  pathExists : DirPath → Bool

def imagesN : Name := "images".toList

def metaN : Name := "meta".toList

def food101N : Name := "food-101".toList

/-- Subdirectory children appended to the queue for a visited directory:
`for p in cur.iterdir(): if p.is_dir(): queue.append(...)`, with the
surrounding `try/except` turning a failed listing into no children. -/
def childDirs (fs : FS) (p : DirPath) : List DirPath :=
  if fs.listOk p then
    ((fs.entries p).map (fun n => p ++ [n])).filter (fun q => fs.isDir q)
  else []

/-- One breadth-first level of `iter_dirs_upto_depth`: pop each queued path
of the current depth in order, skip it if already in `seen`, otherwise add
it to `seen`, yield it, and (when `depth < maxDepth`) collect its child
directories for the next level. Returns (yields, next level, final seen).
Note `seen` holds the queued path itself, exactly as the Python
`seen.add(cur)` does — not `cur.resolve()`. -/
def bfsLevel (fs : FS) (maxDepth depth : Nat) :
    List DirPath → List DirPath → List (DirPath × Nat) × List DirPath × List DirPath
  | [], seen => ([], [], seen)
  | cur :: rest, seen =>
    if cur ∈ seen then
      bfsLevel fs maxDepth depth rest seen
    else
      let kids := if depth < maxDepth then childDirs fs cur else []
      let out := bfsLevel fs maxDepth depth rest (cur :: seen)
      ((cur, depth) :: out.1, kids ++ out.2.1, out.2.2)

/-- Levels of the breadth-first traversal, `gas` levels remaining. The
source's FIFO work-queue (`queue.pop(0)`, children appended at
`depth + 1`) always holds paths of at most two consecutive depths with the
shallower ones first, so popping it in order is exactly: process all queued
paths of the current depth left to right, then the collected children. -/
def bfsLevels (fs : FS) (maxDepth : Nat) :
    Nat → Nat → List DirPath → List DirPath → List (DirPath × Nat)
  | 0, _, _, _ => []
  | gas + 1, depth, level, seen =>
    let step := bfsLevel fs maxDepth depth level seen
    step.1 ++ bfsLevels fs maxDepth gas (depth + 1) step.2.1 step.2.2

/-- `iter_dirs_upto_depth(root, max_depth)`: the list of (directory, depth)
pairs yielded by the breadth-first traversal, in yield order. -/
def iter_dirs_upto_depth (fs : FS) (root : DirPath) (max_depth : Nat) :
    List (DirPath × Nat) :=
  bfsLevels fs max_depth (max_depth + 1) 0 [root] []

/-- The match test of `find_images_meta`:
`(p / "images").is_dir() and (p / "meta").is_dir()`. -/
def hasPair (fs : FS) (p : DirPath) : Bool :=
  fs.isDir (p ++ [imagesN]) && fs.isDir (p ++ [metaN])

/-- `find_images_meta(roots, max_depth)`: first match over the candidates
in order, breadth-first within each; `(None, None)` when nothing matches. -/
def find_images_meta (fs : FS) (roots : List DirPath) (max_depth : Nat) :
    Option DirPath × Option DirPath :=
  match roots with
  | [] => (none, none)
  | r :: rs =>
    match (iter_dirs_upto_depth fs r max_depth).find? (fun pd => hasPair fs pd.1) with
    | some pd => (some (pd.1 ++ [imagesN]), some (pd.1 ++ [metaN]))
    | none => find_images_meta fs rs max_depth

/-- Directories reachable from `p` by following exactly `d` child-directory
steps; used to state depth bounds independently of the traversal. -/
def reachable (fs : FS) (p : DirPath) : Nat → List DirPath
  | 0 => [p]
  | d + 1 => (childDirs fs p).flatMap (fun c => reachable fs c d)

/-- The failed-listing mask: the same filesystem with every unreadable
directory replaced by a readable empty one. -/
def maskFS (fs : FS) : FS :=
  FS.mk (fun p => if fs.listOk p then fs.entries p else [])
    (fun _ => true) fs.isDir fs.isFile fs.resolve fs.pathExists

/-- The archive suffixes `exts = ('.tar.gz', '.tgz', '.tar', '.zip')`. -/
def extsN : List Name := [".tar.gz".toList, ".tgz".toList, ".tar".toList, ".zip".toList]

/-- Python `str.lower()`, restricted to the ASCII case mapping. -/
def lowerN (n : Name) : Name := n.map Char.toLower

/-- The per-class filename test of the archive scan:
`low.startswith(lbl) and low.endswith(exts)` with `low = name.lower()`. -/
def archMatch (lbl : Name) (n : Name) : Bool :=
  lbl.isPrefixOf (lowerN n) && extsN.any (fun e => e.isSuffixOf (lowerN n))

/-- One step of the archive scan loop body: classify file `n` of directory
`root` into (images_archive, meta_archive, food101_archive), the matching
slot being overwritten, non-files and non-matching names left alone. -/
def classifyStep (fs : FS) (root : DirPath)
    (acc : Option DirPath × Option DirPath × Option DirPath) (n : Name) :
    Option DirPath × Option DirPath × Option DirPath :=
  let p := root ++ [n]
  if fs.isFile p then
    if archMatch imagesN n then (some p, acc.2.1, acc.2.2)
    else if archMatch metaN n then (acc.1, some p, acc.2.2)
    else if archMatch food101N n then (acc.1, acc.2.1, some p)
    else acc
  else acc

/-- The archive scan of `main`: `for root in candidates: for p in
root.glob("*"): ...`, starting from three empty slots. -/
def classifyArchives (fs : FS) (cands : List DirPath) :
    Option DirPath × Option DirPath × Option DirPath :=
  cands.foldl (fun acc root => (fs.entries root).foldl (classifyStep fs root) acc)
    (none, none, none)

/-- The loop body of the archive scan restated on the scanned
(path, name) pair, the `is_file` test already performed. -/
def classifyStep2 (acc : Option DirPath × Option DirPath × Option DirPath)
    (q : DirPath × Name) : Option DirPath × Option DirPath × Option DirPath :=
  if archMatch imagesN q.2 then (some q.1, acc.2.1, acc.2.2)
  else if archMatch metaN q.2 then (acc.1, some q.1, acc.2.2)
  else if archMatch food101N q.2 then (acc.1, acc.2.1, some q.1)
  else acc

/-- The files scanned by the archive loop, in scan order. -/
def scannedFiles (fs : FS) (cands : List DirPath) : List (DirPath × Name) :=
  cands.flatMap (fun root =>
    ((fs.entries root).map (fun n => (root ++ [n], n))).filter (fun q => fs.isFile q.1))

/-- Last element of the scan satisfying the test — the value a repeatedly
overwritten variable holds after the loop. -/
def lastHit (test : α → Bool) (l : List α) : Option α := l.reverse.find? test

/-- Observable filesystem mutations performed by `main`. -/
inductive Act where
  | rmtree (p : DirPath)
  | mkdirs (p : DirPath)
  | extract (archive dest : DirPath)
  | copy (src dst : DirPath)
deriving DecidableEq

/-- Process outcome of `main`: a `sys.exit`/normal return with the exit
code and the mutations performed, or an uncaught exception. -/
inductive Outcome where
  | exit (code : Nat) (acts : List Act)
  | raised (acts : List Act)
deriving DecidableEq

/-- Run environment of `main`: availability of kagglehub, the path its
download returns (`none` models a falsy return), the filesystem as read
before extraction and as read after the extraction step, and the CLI
arguments. -/
structure Env where
  kagglehubAvailable : Bool
  downloadPath : Option DirPath
  fs : FS
  fsAfterExtract : FS
  force : Bool
  out : DirPath

/-- The candidate-roots list of `main`: the cache directory, then its
`food-101` subdirectory if that exists, then the doubly nested
`food-101/food-101` if that exists. -/
def candidateRoots (fs : FS) (cache : DirPath) : List DirPath :=
  [cache]
    ++ (if fs.pathExists (cache ++ [food101N]) then [cache ++ [food101N]] else [])
    ++ (if fs.pathExists (cache ++ [food101N, food101N]) then [cache ++ [food101N, food101N]] else [])

/-- Modelled from the Python standard library's documented behavior of
`shutil.copytree` with the default `dirs_exist_ok=False`: the call raises
`FileExistsError` whenever `dst` already exists — empty or not — and
otherwise copies the tree. `none` encodes the raised exception. -/
def copytreeActs (fs : FS) (src dst : DirPath) : Option (List Act) :=
  if fs.pathExists dst then none else some [Act.copy src dst]

/-- One finalization step of `main`: skip the copy when the resolved found
directory already is the resolved target, otherwise `shutil.copytree`. -/
def finalizeActs (fs : FS) (found target : DirPath) : Option (List Act) :=
  if fs.resolve found = fs.resolve target then some []
  else copytreeActs fs found target

/-- Finalization of both Content Pair directories, then normal return
(exit code 0). An exception from `copytree` propagates uncaught. -/
def finishUp (fs : FS) (img met out : DirPath) (acts : List Act) : Outcome :=
  match finalizeActs fs img (out ++ [imagesN]) with
  | none => .raised acts
  | some a1 =>
    match finalizeActs fs met (out ++ [metaN]) with
    | none => .raised (acts ++ a1)
    | some a2 => .exit 0 (acts ++ a1 ++ a2)

/-- The extractions performed by the archive branch: the combined archive
alone when one was retained, otherwise whichever of the images/meta
archives were retained, in that order. -/
def op2extracts (ia ma fa : Option DirPath) (out : DirPath) : List Act :=
  match fa with
  | some c => [Act.extract c out]
  | none =>
    (ia.toList.map (fun a => Act.extract a out))
      ++ (ma.toList.map (fun a => Act.extract a out))

/-- After extraction: `find_images_meta([out_dir], max_depth=2)`, exit 3
when still unresolved, otherwise finalization. -/
def rerunStage (fs : FS) (out : DirPath) (acts : List Act) : Outcome :=
  match find_images_meta fs [out] 2 with
  | (some img, some met) => finishUp fs img met out acts
  | _ => .exit 3 acts

/-- `main` after the output-directory check: `mkdir` the output, build the
candidate list, direct search at depth 3; on success finalize, otherwise
scan and extract archives and re-run the search on the output directory. -/
def mainAfterOut (env : Env) (cache : DirPath) (acts0 : List Act) : Outcome :=
  let acts1 := acts0 ++ [Act.mkdirs env.out]
  let cands := candidateRoots env.fs cache
  match find_images_meta env.fs cands 3 with
  | (some img, some met) => finishUp env.fs img met env.out acts1
  | _ =>
    let cls := classifyArchives env.fs cands
    rerunStage env.fsAfterExtract env.out
      (acts1 ++ op2extracts cls.1 cls.2.1 cls.2.2 env.out)

/-- `main` of `download_food101.py`: kagglehub import check (exit 1),
download-path check (exit 2), existing-output check (skip with exit 0, or
`rmtree` under `--force`), then the search/extract/finalize pipeline. -/
def mainModel (env : Env) : Outcome :=
  if env.kagglehubAvailable = false then .exit 1 []
  else
    match env.downloadPath with
    | none => .exit 2 []
    | some cache =>
      if env.fs.pathExists env.out then
        if env.force then mainAfterOut env cache [Act.rmtree env.out]
        else .exit 0 []
      else mainAfterOut env cache []

/-- Python `posixpath.dirname`: the part before the final slash, with
trailing slashes stripped unless the head is all slashes; the empty string
when there is no slash. -/
def dirname (s : Name) : Name :=
  let i := match s.reverse.findIdx? (fun c => c == '/') with
    | none => 0
    | some j => s.length - j
  let head := s.take i
  if head.isEmpty then head
  else if head = List.replicate head.length '/' then head
  else (head.reverse.dropWhile (fun c => c == '/')).reverse

/-- Environment read by `utils_image_find`: existence test, whether
creating a given (nonempty) directory path succeeds, and the download
attempt (url, destination ↦ success, or the exception message). -/
structure WebEnv where
  pathExists : Name → Bool
  makedirsOk : Name → Bool
  download : Name → Name → Except Name Unit

/-- Modelled from Python `os.makedirs(d, exist_ok=True)`: the empty path
always raises (`mkdir('')` fails with FileNotFoundError and `exist_ok`
does not suppress it since `isdir('')` is false); otherwise success is up
to the environment (permissions and the like). -/
def makedirsSucceeds (env : WebEnv) (d : Name) : Bool :=
  if d.isEmpty then false else env.makedirsOk d

/-- Result of a Python call: a returned string or an uncaught exception. -/
inductive PyResult where
  | ret (s : Name)
  | raised (msg : Name)
deriving DecidableEq

/-- `utils_image_find(local_path, url=None)` of `utility_functions.py`.
The `os.makedirs(os.path.dirname(local_path), exist_ok=True)` call runs
first and outside any `try`, so its failure propagates; the download and
the file write sit inside `try/except` and report in-band; a falsy `url`
(absent or empty) falls through to the not-found message. -/
def utils_image_find (env : WebEnv) (local_path : Name) (url : Option Name) : PyResult :=
  if makedirsSucceeds env (dirname local_path) = false then
    .raised "OSError".toList
  else if env.pathExists local_path then .ret local_path
  else
    match url with
    | some u =>
      if u.isEmpty then .ret "Image not found, add url argument".toList
      else
        match env.download u local_path with
        | .ok _ => .ret local_path
        | .error e => .ret ("Download failed: ".toList ++ e)
    | none => .ret "Image not found, add url argument".toList

def rN : Name := "r".toList

def aN : Name := "a".toList

def bN : Name := "b".toList

def cN : Name := "c".toList

def dN : Name := "d".toList

/-- Concrete tree with the Content Pair at depth 1 under `r/a` and again at
depth 3 under `r/b/c/d` — the breadth-first-priority scenario. -/
def fsWdirs : List DirPath :=
  [[rN], [rN, aN], [rN, bN], [rN, aN, imagesN], [rN, aN, metaN],
   [rN, bN, cN], [rN, bN, cN, dN], [rN, bN, cN, dN, imagesN], [rN, bN, cN, dN, metaN]]

def fsW : FS :=
  FS.mk
    (fun p =>
      if p = [rN] then [aN, bN]
      else if p = [rN, aN] then [imagesN, metaN]
      else if p = [rN, bN] then [cN]
      else if p = [rN, bN, cN] then [dN]
      else if p = [rN, bN, cN, dN] then [imagesN, metaN]
      else [])
    (fun _ => true)
    (fun p => decide (p ∈ fsWdirs))
    (fun _ => false)
    id
    (fun p => decide (p ∈ fsWdirs))

/-- Concrete tree with the Content Pair only at depth 2 (`r/a/b`), for the
depth-bound witness with `max_depth = 1`. -/
def fsBdirs : List DirPath :=
  [[rN], [rN, aN], [rN, aN, bN], [rN, aN, bN, imagesN], [rN, aN, bN, metaN]]

def fsB : FS :=
  FS.mk
    (fun p =>
      if p = [rN] then [aN]
      else if p = [rN, aN] then [bN]
      else if p = [rN, aN, bN] then [imagesN, metaN]
      else [])
    (fun _ => true)
    (fun p => decide (p ∈ fsBdirs))
    (fun _ => false)
    id
    (fun p => decide (p ∈ fsBdirs))

def cacheP : DirPath := ["cache".toList]

def outP : DirPath := ["out".toList]

/-- Concrete cache directory holding only archive files: an `images.zip`
then an upper-case `IMAGES.TAR` (so the last scanned wins, matched
case-insensitively), a `meta.tar.gz` and a `food-101.tar`. -/
def fsArch : FS :=
  FS.mk
    (fun p =>
      if p = cacheP then
        ["images.zip".toList, "IMAGES.TAR".toList, "meta.tar.gz".toList,
         "food-101.tar".toList]
      else [])
    (fun _ => true)
    (fun _ => false)
    (fun p => decide (p ∈
      [cacheP ++ ["images.zip".toList], cacheP ++ ["IMAGES.TAR".toList],
       cacheP ++ ["meta.tar.gz".toList], cacheP ++ ["food-101.tar".toList]]))
    id
    (fun _ => false)

/-- Concrete run environment that reaches the archive branch with a
combined archive present. -/
def env4 : Env := Env.mk true (some cacheP) fsArch fsArch false outP

/-- Concrete filesystem for finalization: the copy target
`out/images` already exists but is empty (no entries), and resolution is
the identity so source and target differ. -/
def fs7 : FS :=
  FS.mk (fun _ => []) (fun _ => true) (fun _ => true) (fun _ => false) id
    (fun p => decide (p = outP ++ [imagesN]))

/-- Concrete filesystem where the output directory already exists. -/
def fsOutExists : FS :=
  FS.mk (fun _ => []) (fun _ => true) (fun _ => false) (fun _ => false) id
    (fun p => decide (p = outP))

/-- Concrete run environment for the no-`--force` skip. -/
def envSkip : Env := Env.mk true (some cacheP) fsOutExists fsOutExists false outP

/-- Concrete run environment for the `--force` path. -/
def envForce : Env := Env.mk true (some cacheP) fsOutExists fsOutExists true outP

/-- Concrete run environment with kagglehub unavailable. -/
def envNoKH : Env := Env.mk false none fsOutExists fsOutExists false outP

/-- Concrete run environment where the download returns no path. -/
def envNoPath : Env := Env.mk true none fsOutExists fsOutExists false outP

/-- Concrete cache with ready `images`/`meta` directories and a fresh
output path: a full success-with-work run. -/
def fsWork : FS :=
  FS.mk (fun p => if p = cacheP then [imagesN, metaN] else [])
    (fun _ => true)
    (fun p => decide (p ∈ [cacheP, cacheP ++ [imagesN], cacheP ++ [metaN]]))
    (fun _ => false) id (fun _ => false)

/-- Concrete run environment for the success-with-work run. -/
def envWork : Env := Env.mk true (some cacheP) fsWork fsWork false outP

/-- Concrete web environment where everything succeeds and the local file
exists. -/
def webEnvC : WebEnv :=
  WebEnv.mk (fun _ => true) (fun _ => true) (fun _ _ => Except.ok ())

/-- Concrete web environment where the file is absent and the download
raises. -/
def webEnvF : WebEnv :=
  WebEnv.mk (fun _ => false) (fun _ => true)
    (fun _ _ => Except.error "boom".toList)

/-- Concrete filesystem where `r/a` and `r/b` are two names for the same
physical directory (`r/b` a symlink to `r/a`), as the resolve map records. -/
def symFS : FS :=
  FS.mk
    (fun p => if p = [rN] then [aN, bN] else [])
    (fun _ => true)
    (fun _ => true)
    (fun _ => false)
    (fun p => if p = [rN, bN] then [rN, aN] else p)
    (fun _ => false)

end Food101

namespace Food101

/-! Helper lemmas about the breadth-first traversal. -/

theorem bfsLevel_seen_eq (fs : FS) (k d : Nat) (lvl : List DirPath) :
    ∀ seen, (bfsLevel fs k d lvl seen).2.2 =
      ((bfsLevel fs k d lvl seen).1.map Prod.fst).reverse ++ seen := by
  induction lvl with
  | nil => intro seen; simp [bfsLevel]
  | cons cur rest ih =>
    intro seen
    by_cases h : cur ∈ seen
    · simpa [bfsLevel, h] using ih seen
    · simp only [bfsLevel, if_neg h]
      simp [ih (cur :: seen)]

theorem bfsLevel_yield_mem (fs : FS) (k d : Nat) (lvl : List DirPath) :
    ∀ seen, ∀ pe ∈ (bfsLevel fs k d lvl seen).1,
      pe.2 = d ∧ pe.1 ∈ lvl ∧ pe.1 ∉ seen := by
  induction lvl with
  | nil => intro seen pe hpe; simp [bfsLevel] at hpe
  | cons cur rest ih =>
    intro seen pe hpe
    by_cases h : cur ∈ seen
    · simp only [bfsLevel, if_pos h] at hpe
      rcases ih seen pe hpe with ⟨h1, h2, h3⟩
      exact ⟨h1, List.mem_cons_of_mem _ h2, h3⟩
    · simp only [bfsLevel, if_neg h] at hpe
      rcases List.mem_cons.mp hpe with heq | hmem
      · subst heq; exact ⟨rfl, List.mem_cons_self _ _, h⟩
      · rcases ih (cur :: seen) pe hmem with ⟨h1, h2, h3⟩
        refine ⟨h1, List.mem_cons_of_mem _ h2, fun hs => h3 (List.mem_cons_of_mem _ hs)⟩

theorem bfsLevel_yield_nodup (fs : FS) (k d : Nat) (lvl : List DirPath) :
    ∀ seen, ((bfsLevel fs k d lvl seen).1.map Prod.fst).Nodup := by
  induction lvl with
  | nil => intro seen; simp [bfsLevel]
  | cons cur rest ih =>
    intro seen
    by_cases h : cur ∈ seen
    · simpa [bfsLevel, h] using ih seen
    · simp only [bfsLevel, if_neg h, List.map_cons, List.nodup_cons]
      refine ⟨fun hmem => ?_, ih (cur :: seen)⟩
      rcases List.mem_map.mp hmem with ⟨pe, hpe, hfst⟩
      rcases bfsLevel_yield_mem fs k d rest (cur :: seen) pe hpe with ⟨_, _, h3⟩
      exact h3 (hfst ▸ List.mem_cons_self _ _)

theorem bfsLevel_next_mem (fs : FS) (k d : Nat) (lvl : List DirPath) :
    ∀ seen, ∀ q ∈ (bfsLevel fs k d lvl seen).2.1,
      d < k ∧ ∃ c ∈ lvl, q ∈ childDirs fs c := by
  induction lvl with
  | nil => intro seen q hq; simp [bfsLevel] at hq
  | cons cur rest ih =>
    intro seen q hq
    by_cases h : cur ∈ seen
    · simp only [bfsLevel, if_pos h] at hq
      rcases ih seen q hq with ⟨h1, c, h2, h3⟩
      exact ⟨h1, c, List.mem_cons_of_mem _ h2, h3⟩
    · simp only [bfsLevel, if_neg h, List.mem_append] at hq
      rcases hq with hkid | hnext
      · by_cases hd : d < k
        · rw [if_pos hd] at hkid
          exact ⟨hd, cur, List.mem_cons_self _ _, hkid⟩
        · rw [if_neg hd] at hkid
          simp at hkid
      · rcases ih (cur :: seen) q hnext with ⟨h1, c, h2, h3⟩
        exact ⟨h1, c, List.mem_cons_of_mem _ h2, h3⟩

theorem bfsLevels_depth_bound (fs : FS) (k : Nat) :
    ∀ (gas d : Nat) (lvl seen : List DirPath),
      ∀ pe ∈ bfsLevels fs k gas d lvl seen, d ≤ pe.2 ∧ pe.2 < d + gas := by
  intro gas
  induction gas with
  | zero => intro d lvl seen pe hpe; simp [bfsLevels] at hpe
  | succ g ih =>
    intro d lvl seen pe hpe
    simp only [bfsLevels, List.mem_append] at hpe
    rcases hpe with hy | hr
    · rcases bfsLevel_yield_mem fs k d lvl seen pe hy with ⟨h1, _, _⟩
      omega
    · rcases ih (d + 1) _ _ pe hr with ⟨h1, h2⟩
      omega

theorem bfsLevels_not_seen (fs : FS) (k : Nat) :
    ∀ (gas d : Nat) (lvl seen : List DirPath),
      ∀ pe ∈ bfsLevels fs k gas d lvl seen, pe.1 ∉ seen := by
  intro gas
  induction gas with
  | zero => intro d lvl seen pe hpe; simp [bfsLevels] at hpe
  | succ g ih =>
    intro d lvl seen pe hpe
    simp only [bfsLevels, List.mem_append] at hpe
    rcases hpe with hy | hr
    · exact (bfsLevel_yield_mem fs k d lvl seen pe hy).2.2
    · intro hs
      apply ih (d + 1) _ _ pe hr
      rw [bfsLevel_seen_eq]
      exact List.mem_append_right _ hs

theorem bfsLevels_nodup (fs : FS) (k : Nat) :
    ∀ (gas d : Nat) (lvl seen : List DirPath),
      ((bfsLevels fs k gas d lvl seen).map Prod.fst).Nodup := by
  intro gas
  induction gas with
  | zero => intro d lvl seen; simp [bfsLevels]
  | succ g ih =>
    intro d lvl seen
    simp only [bfsLevels, List.map_append]
    refine List.Nodup.append (bfsLevel_yield_nodup fs k d lvl seen) (ih _ _ _) ?_
    intro p hp hp'
    rcases List.mem_map.mp hp' with ⟨pe, hpe, hfst⟩
    apply bfsLevels_not_seen fs k g (d + 1) _ _ pe hpe
    rw [bfsLevel_seen_eq, hfst]
    exact List.mem_append_left _ (List.mem_reverse.mpr hp)

theorem bfsLevels_sorted (fs : FS) (k : Nat) :
    ∀ (gas d : Nat) (lvl seen : List DirPath),
      (bfsLevels fs k gas d lvl seen).Pairwise (fun a b => a.2 ≤ b.2) := by
  intro gas
  induction gas with
  | zero => intro d lvl seen; simp [bfsLevels]
  | succ g ih =>
    intro d lvl seen
    simp only [bfsLevels]
    rw [List.pairwise_append]
    refine ⟨?_, ih _ _ _, ?_⟩
    · have hall : ∀ pe ∈ (bfsLevel fs k d lvl seen).1, pe.2 = d :=
        fun pe hpe => (bfsLevel_yield_mem fs k d lvl seen pe hpe).1
      exact List.Pairwise.imp_of_mem
        (fun {a b} ha hb _ => by rw [hall a ha, hall b hb])
        (List.pairwise_of_forall_mem_list fun a _ b _ => trivial)
    · intro a ha b hb
      have h1 := (bfsLevel_yield_mem fs k d lvl seen a ha).1
      have h2 := (bfsLevels_depth_bound fs k g (d + 1) _ _ b hb).1
      omega

theorem reachable_succ (fs : FS) :
    ∀ (d : Nat) (p : DirPath),
      reachable fs p (d + 1) = (reachable fs p d).flatMap (fun c => childDirs fs c) := by
  intro d
  induction d with
  | zero => intro p; simp [reachable]
  | succ d ih =>
    intro p
    show (childDirs fs p).flatMap (fun c => reachable fs c (d + 1)) = _
    calc (childDirs fs p).flatMap (fun c => reachable fs c (d + 1))
        = (childDirs fs p).flatMap (fun c => (reachable fs c d).flatMap (fun q => childDirs fs q)) := by
          simp only [fun c => ih c]
      _ = ((childDirs fs p).flatMap (fun c => reachable fs c d)).flatMap (fun q => childDirs fs q) := by
          rw [List.flatMap_assoc]
      _ = (reachable fs p (d + 1)).flatMap (fun q => childDirs fs q) := rfl

theorem bfsLevels_reach (fs : FS) (k : Nat) (r : DirPath) :
    ∀ (gas d : Nat) (lvl seen : List DirPath),
      (∀ p ∈ lvl, p ∈ reachable fs r d) →
      ∀ pe ∈ bfsLevels fs k gas d lvl seen, pe.1 ∈ reachable fs r pe.2 := by
  intro gas
  induction gas with
  | zero => intro d lvl seen _ pe hpe; simp [bfsLevels] at hpe
  | succ g ih =>
    intro d lvl seen hlvl pe hpe
    simp only [bfsLevels, List.mem_append] at hpe
    rcases hpe with hy | hr
    · rcases bfsLevel_yield_mem fs k d lvl seen pe hy with ⟨h1, h2, _⟩
      rw [h1]
      exact hlvl pe.1 h2
    · refine ih (d + 1) _ _ ?_ pe hr
      intro q hq
      rcases bfsLevel_next_mem fs k d lvl seen q hq with ⟨_, c, hc, hcd⟩
      rw [reachable_succ]
      exact List.mem_flatMap.mpr ⟨c, hlvl c hc, hcd⟩

theorem find_images_meta_eq_find? (fs : FS) (k : Nat) (roots : List DirPath) :
    find_images_meta fs roots k =
      match (roots.flatMap (fun r => iter_dirs_upto_depth fs r k)).find?
          (fun pd => hasPair fs pd.1) with
      | some pd => (some (pd.1 ++ [imagesN]), some (pd.1 ++ [metaN]))
      | none => (none, none) := by
  induction roots with
  | nil => simp [find_images_meta]
  | cons r rs ih =>
    simp only [find_images_meta, List.flatMap_cons, List.find?_append]
    cases hf : (iter_dirs_upto_depth fs r k).find? (fun pd => hasPair fs pd.1) with
    | some pd => simp [Option.or]
    | none => simp only [Option.none_or]; exact ih

theorem find?_min_depth {l : List (DirPath × Nat)} {P : DirPath × Nat → Bool}
    {a : DirPath × Nat} (hsort : l.Pairwise (fun x y => x.2 ≤ y.2))
    (hfind : l.find? P = some a) :
    ∀ b ∈ l, P b = true → a.2 ≤ b.2 := by
  induction l with
  | nil => simp at hfind
  | cons x t ih =>
    by_cases hPx : P x = true
    · rw [List.find?_cons_of_pos _ hPx] at hfind
      injection hfind with hxa
      subst hxa
      intro b hb hPb
      rcases List.mem_cons.mp hb with hbx | hbt
      · rw [hbx]
      · exact (List.pairwise_cons.mp hsort).1 b hbt
    · rw [List.find?_cons_of_neg _ (by simpa using hPx)] at hfind
      intro b hb hPb
      rcases List.mem_cons.mp hb with hbx | hbt
      · exact absurd (hbx ▸ hPb) hPx
      · exact ih (List.pairwise_cons.mp hsort).2 hfind b hbt hPb

theorem childDirs_mask (fs : FS) (p : DirPath) :
    childDirs (maskFS fs) p = childDirs fs p := by
  by_cases h : fs.listOk p = true
  · simp [childDirs, maskFS, h]
  · simp [childDirs, maskFS, h]

theorem bfsLevel_mask (fs : FS) (k d : Nat) (lvl : List DirPath) :
    ∀ seen, bfsLevel (maskFS fs) k d lvl seen = bfsLevel fs k d lvl seen := by
  induction lvl with
  | nil => intro seen; rfl
  | cons cur rest ih =>
    intro seen
    by_cases h : cur ∈ seen
    · simp only [bfsLevel, if_pos h, ih]
    · simp only [bfsLevel, if_neg h, ih, childDirs_mask]

theorem bfsLevels_mask (fs : FS) (k : Nat) :
    ∀ gas d lvl seen,
      bfsLevels (maskFS fs) k gas d lvl seen = bfsLevels fs k gas d lvl seen := by
  intro gas
  induction gas with
  | zero => intro d lvl seen; rfl
  | succ g ih => intro d lvl seen; simp only [bfsLevels, bfsLevel_mask, ih]

/-! Claims C1, C2, C3, C6. -/

/-- C1: `find_images_meta` returns the `images`/`meta` subdirectories of the
first directory, over the candidates in the given order and in
breadth-first yield order within each candidate, whose two labels both are
subdirectories, and returns immediately on that first match; the yield
order is nondecreasing in depth, so a matching directory at depth 1 is
preferred over one at a greater depth in a later subtree of the same
root. -/
theorem c1_find_first_match (fs : FS) (roots : List DirPath) (k : Nat) :
    (find_images_meta fs roots k =
      match (roots.flatMap (fun r => iter_dirs_upto_depth fs r k)).find?
          (fun pd => hasPair fs pd.1) with
      | some pd => (some (pd.1 ++ [imagesN]), some (pd.1 ++ [metaN]))
      | none => (none, none))
    ∧ (∀ r : DirPath, (iter_dirs_upto_depth fs r k).Pairwise (fun a b => a.2 ≤ b.2))
    ∧ (∀ (r : DirPath) (pd : DirPath × Nat),
        (iter_dirs_upto_depth fs r k).find? (fun x => hasPair fs x.1) = some pd →
        ∀ pd' ∈ iter_dirs_upto_depth fs r k, hasPair fs pd'.1 = true → pd.2 ≤ pd'.2) :=
  ⟨find_images_meta_eq_find? fs k roots,
   fun r => bfsLevels_sorted fs k (k + 1) 0 [r] [],
   fun r _pd hfind pd' hmem hpair =>
     find?_min_depth (bfsLevels_sorted fs k (k + 1) 0 [r] []) hfind pd' hmem hpair⟩

theorem c1_witness :
    find_images_meta fsW [[rN]] 3 = (some [rN, aN, imagesN], some [rN, aN, metaN])
    ∧ (1 : Nat) ≤ 3 :=
  ⟨(c1_find_first_match fsW [[rN]] 3).1.trans (by decide),
   (c1_find_first_match fsW [[rN]] 3).2.2 [rN] ([rN, aN], 1) (by decide)
     ([rN, bN, cN, dN], 3) (by decide) (by decide)⟩

/-- C2 (corrected): the Python seen-set is keyed on the queued path itself,
not on its resolved canonical form, so each textual path is visited at most
once; distinct queued paths that resolve to the same physical directory
are each visited. This theorem is the surviving half: the yielded paths of
one traversal contain no duplicates. -/
theorem c2_visited_once (fs : FS) (root : DirPath) (k : Nat) :
    ((iter_dirs_upto_depth fs root k).map Prod.fst).Nodup :=
  bfsLevels_nodup fs k (k + 1) 0 [root] []

/-- C2 counterexample: under `symFS`, the paths `r/a` and `r/b` resolve to
the same physical directory, yet both are visited by the traversal —
refuting the claim that the seen-set is keyed on the resolved path and that
two queued aliases of one directory are never both visited. -/
theorem c2_counterexample :
    ([rN, aN], 1) ∈ iter_dirs_upto_depth symFS [rN] 3
    ∧ ([rN, bN], 1) ∈ iter_dirs_upto_depth symFS [rN] 3
    ∧ symFS.resolve [rN, aN] = symFS.resolve [rN, bN]
    ∧ [rN, aN] ≠ [rN, bN] := by decide

/-- C3: every yielded directory lies at depth at most `max_depth`, at its
stated depth relative to the root; consequently, when the Content Pair is
nested strictly deeper than `max_depth` under every candidate root,
`find_images_meta` returns not-found. -/
theorem c3_depth_bound (fs : FS) (roots : List DirPath) (k : Nat) :
    (∀ r : DirPath, ∀ pd ∈ iter_dirs_upto_depth fs r k,
        pd.2 ≤ k ∧ pd.1 ∈ reachable fs r pd.2)
    ∧ ((∀ r ∈ roots, ∀ d ≤ k, ∀ p ∈ reachable fs r d, hasPair fs p = false) →
        find_images_meta fs roots k = (none, none)) := by
  have hpart1 : ∀ r : DirPath, ∀ pd ∈ iter_dirs_upto_depth fs r k,
      pd.2 ≤ k ∧ pd.1 ∈ reachable fs r pd.2 := by
    intro r pd hpd
    have hb := bfsLevels_depth_bound fs k (k + 1) 0 [r] [] pd hpd
    have hr := bfsLevels_reach fs k r (k + 1) 0 [r] []
      (by intro p hp; simpa [reachable] using hp) pd hpd
    exact ⟨by omega, hr⟩
  refine ⟨hpart1, fun hnone => ?_⟩
  rw [find_images_meta_eq_find? fs k roots]
  have hfnone : (roots.flatMap (fun r => iter_dirs_upto_depth fs r k)).find?
      (fun pd => hasPair fs pd.1) = none := by
    apply List.find?_eq_none.mpr
    intro pd hpd
    rcases List.mem_flatMap.mp hpd with ⟨r, hr, hin⟩
    rcases hpart1 r pd hin with ⟨hd, hreach⟩
    simp [hnone r hr pd.2 hd pd.1 hreach]
  rw [hfnone]

theorem c3_witness : find_images_meta fsB [[rN]] 1 = (none, none) :=
  (c3_depth_bound fsB [[rN]] 1).2 (by decide)

/-- C6: a directory whose listing fails is treated exactly as an empty
readable one — the subtree is skipped and the rest of the search is
unchanged — and `find_images_meta` is a total function that returns
`(none, none)` precisely when no visited directory across the candidates
has both labels as subdirectories, rather than raising. -/
theorem c6_skip_failed_total (fs : FS) (root : DirPath) (roots : List DirPath) (k : Nat) :
    iter_dirs_upto_depth (maskFS fs) root k = iter_dirs_upto_depth fs root k
    ∧ (find_images_meta fs roots k = (none, none) ↔
        (roots.all fun r =>
          (iter_dirs_upto_depth fs r k).all fun pd => !(hasPair fs pd.1)) = true) := by
  refine ⟨bfsLevels_mask fs k (k + 1) 0 [root] [], ?_⟩
  rw [find_images_meta_eq_find? fs k roots]
  cases hf : (roots.flatMap (fun r => iter_dirs_upto_depth fs r k)).find?
      (fun pd => hasPair fs pd.1) with
  | some pd =>
    simp only []
    constructor
    · intro h; simp at h
    · intro hall
      exfalso
      have hmem := List.mem_of_find?_eq_some hf
      have hP := List.find?_some hf
      rcases List.mem_flatMap.mp hmem with ⟨r, hr, hin⟩
      have h1 := List.all_eq_true.mp hall r hr
      have h2 := List.all_eq_true.mp h1 pd hin
      simp [hP] at h2
  | none =>
    simp only []
    constructor
    · intro _
      apply List.all_eq_true.mpr
      intro r hr
      apply List.all_eq_true.mpr
      intro pd hpd
      have := List.find?_eq_none.mp hf pd (List.mem_flatMap.mpr ⟨r, hr, hpd⟩)
      simpa using this
    · intro _; trivial

/-! Helper lemmas about the archive classification. -/

theorem option_map_or (f : α → β) (a b : Option α) :
    (a.or b).map f = (a.map f).or (b.map f) := by
  cases a <;> rfl

theorem option_or_none (o : Option α) : o.or none = o := by
  cases o <;> rfl

theorem lastHit_cons (P : α → Bool) (x : α) (t : List α) :
    lastHit P (x :: t) = (lastHit P t).or (if P x then some x else none) := by
  simp only [lastHit, List.reverse_cons, List.find?_append]
  cases h : P x <;> simp [List.find?, h]

theorem lastHit_congr {P Q : α → Bool} (h : ∀ x, P x = Q x) (l : List α) :
    lastHit P l = lastHit Q l := by
  have hPQ : P = Q := funext h
  rw [hPQ]

theorem archMatch_excl {l1 l2 : Name} {a b : Char} {as bs : Name}
    (h1 : l1 = a :: as) (h2 : l2 = b :: bs) (hab : a ≠ b) (n : Name) :
    ¬(archMatch l1 n = true ∧ archMatch l2 n = true) := by
  rintro ⟨hm1, hm2⟩
  simp only [archMatch, Bool.and_eq_true] at hm1 hm2
  have p1 : l1.isPrefixOf (lowerN n) = true := hm1.1
  have p2 : l2.isPrefixOf (lowerN n) = true := hm2.1
  subst h1 h2
  cases hlow : lowerN n with
  | nil => rw [hlow] at p1; simp [List.isPrefixOf] at p1
  | cons c t =>
    rw [hlow] at p1 p2
    simp [List.isPrefixOf] at p1 p2
    exact hab (p1.1.trans p2.1.symm)

theorem foldl_classifyStep_eq (fs : FS) (root : DirPath) (l : List Name) :
    ∀ acc, l.foldl (classifyStep fs root) acc =
      (((l.map (fun n => (root ++ [n], n))).filter (fun q => fs.isFile q.1)).foldl
        classifyStep2 acc) := by
  induction l with
  | nil => intro acc; rfl
  | cons n t ih =>
    intro acc
    have hstep : classifyStep fs root acc n =
        if fs.isFile (root ++ [n]) = true then classifyStep2 acc (root ++ [n], n)
        else acc := by
      by_cases h : fs.isFile (root ++ [n]) = true <;>
        simp [classifyStep, classifyStep2, h]
    by_cases h : fs.isFile (root ++ [n]) = true <;>
      simp [List.foldl_cons, List.map_cons, List.filter_cons, h, hstep, ih]

theorem classifyArchives_eq_fold (fs : FS) (cands : List DirPath) :
    classifyArchives fs cands =
      (scannedFiles fs cands).foldl classifyStep2 (none, none, none) := by
  suffices haux : ∀ acc, cands.foldl
      (fun acc root => (fs.entries root).foldl (classifyStep fs root) acc) acc =
      (scannedFiles fs cands).foldl classifyStep2 acc from haux (none, none, none)
  induction cands with
  | nil => intro acc; rfl
  | cons r rs ih =>
    intro acc
    simp only [List.foldl_cons, scannedFiles, List.flatMap_cons, List.foldl_append]
    rw [foldl_classifyStep_eq fs r (fs.entries r) acc]
    exact ih _

theorem foldl_classifyStep2_eq (l : List (DirPath × Name)) :
    ∀ acc, l.foldl classifyStep2 acc =
      (((lastHit (fun q => archMatch imagesN q.2) l).map Prod.fst).or acc.1,
       ((lastHit (fun q => !(archMatch imagesN q.2) && archMatch metaN q.2) l).map
          Prod.fst).or acc.2.1,
       ((lastHit (fun q => !(archMatch imagesN q.2) && !(archMatch metaN q.2)
            && archMatch food101N q.2) l).map Prod.fst).or acc.2.2) := by
  induction l with
  | nil => intro acc; simp [lastHit]
  | cons x t ih =>
    intro acc
    simp only [List.foldl_cons]
    rw [ih (classifyStep2 acc x)]
    by_cases h1 : archMatch imagesN x.2 = true
    · simp [lastHit_cons, h1, option_map_or, Option.or_assoc, classifyStep2]
    · by_cases h2 : archMatch metaN x.2 = true
      · simp [lastHit_cons, h1, h2, option_map_or, Option.or_assoc, classifyStep2]
      · by_cases h3 : archMatch food101N x.2 = true
        · simp [lastHit_cons, h1, h2, h3, option_map_or, Option.or_assoc, classifyStep2]
        · simp [lastHit_cons, h1, h2, h3, option_map_or, Option.or_assoc, classifyStep2]

/-! Claims C5 and C4. -/

/-- C5: archive classification is a function of the lowercased filename —
case-insensitive on both the label test and the suffix test — retaining,
for each of the three classes (name starting with `images`, `meta`,
`food-101`, with one of the suffixes .tar.gz/.tgz/.tar/.zip), exactly the
last matching file of the scan, earlier ones silently overwritten. -/
theorem c5_classification (fs : FS) (cands : List DirPath) :
    (classifyArchives fs cands =
      ((lastHit (fun q => archMatch imagesN q.2) (scannedFiles fs cands)).map Prod.fst,
       (lastHit (fun q => archMatch metaN q.2) (scannedFiles fs cands)).map Prod.fst,
       (lastHit (fun q => archMatch food101N q.2) (scannedFiles fs cands)).map Prod.fst))
    ∧ (∀ lbl n m : Name, lowerN n = lowerN m → archMatch lbl n = archMatch lbl m) := by
  have him : imagesN = 'i' :: "mages".toList := by decide
  have hme : metaN = 'm' :: "eta".toList := by decide
  have hfo : food101N = 'f' :: "ood-101".toList := by decide
  have e2 : ∀ q : DirPath × Name,
      (!(archMatch imagesN q.2) && archMatch metaN q.2) = archMatch metaN q.2 := by
    intro q
    cases hm : archMatch metaN q.2
    · simp
    · simp only [Bool.and_true]
      cases hi : archMatch imagesN q.2
      · rfl
      · exact absurd ⟨hi, hm⟩ (archMatch_excl him hme (by decide) q.2)
  have e3 : ∀ q : DirPath × Name,
      (!(archMatch imagesN q.2) && !(archMatch metaN q.2) && archMatch food101N q.2)
        = archMatch food101N q.2 := by
    intro q
    cases hf : archMatch food101N q.2
    · simp
    · have hi : archMatch imagesN q.2 = false := by
        cases hi : archMatch imagesN q.2
        · rfl
        · exact absurd ⟨hi, hf⟩ (archMatch_excl him hfo (by decide) q.2)
      have hm : archMatch metaN q.2 = false := by
        cases hm : archMatch metaN q.2
        · rfl
        · exact absurd ⟨hm, hf⟩ (archMatch_excl hme hfo (by decide) q.2)
      simp [hi, hm]
  constructor
  · rw [classifyArchives_eq_fold, foldl_classifyStep2_eq,
      lastHit_congr e2, lastHit_congr e3]
    simp [option_or_none]
  · intro lbl n m h
    simp [archMatch, h]

theorem c5_witness :
    classifyArchives fsArch [cacheP] =
      (some (cacheP ++ ["IMAGES.TAR".toList]), some (cacheP ++ ["meta.tar.gz".toList]),
       some (cacheP ++ ["food-101.tar".toList]))
    ∧ archMatch imagesN "IMAGES.ZIP".toList = archMatch imagesN "images.zip".toList :=
  ⟨(c5_classification fsArch [cacheP]).1.trans (by decide),
   (c5_classification fsArch [cacheP]).2 imagesN "IMAGES.ZIP".toList
     "images.zip".toList (by decide)⟩

/-- C4: in the archive branch (Operation 1 failed on the candidates), when
a combined archive was retained, exactly that one archive is extracted into
the output directory — retained primary/secondary archives alongside it are
not extracted — and then Operation 1 is re-run, via `rerunStage`, against
the output directory alone with max depth 2; when none was retained,
whichever of the primary/secondary archives were retained are each
extracted into the output directory, absent ones skipped, followed by the
same re-run. -/
theorem c4_extraction_policy (env : Env) (cache : DirPath) (ia ma : Option DirPath)
    (h1 : env.kagglehubAvailable = true)
    (h2 : env.downloadPath = some cache)
    (h3 : env.fs.pathExists env.out = false)
    (h4 : find_images_meta env.fs (candidateRoots env.fs cache) 3 = (none, none)) :
    (∀ c : DirPath,
      classifyArchives env.fs (candidateRoots env.fs cache) = (ia, ma, some c) →
      mainModel env = rerunStage env.fsAfterExtract env.out
        [Act.mkdirs env.out, Act.extract c env.out])
    ∧ (classifyArchives env.fs (candidateRoots env.fs cache) = (ia, ma, none) →
      mainModel env = rerunStage env.fsAfterExtract env.out
        ([Act.mkdirs env.out]
          ++ (ia.toList.map (fun a => Act.extract a env.out))
          ++ (ma.toList.map (fun a => Act.extract a env.out)))) := by
  constructor
  · intro c hcls
    simp [mainModel, h1, h2, h3, mainAfterOut, h4, hcls, op2extracts]
  · intro hcls
    simp [mainModel, h1, h2, h3, mainAfterOut, h4, hcls, op2extracts]

theorem c4_witness :
    mainModel env4 = rerunStage fsArch outP
      [Act.mkdirs outP, Act.extract (cacheP ++ ["food-101.tar".toList]) outP] :=
  (c4_extraction_policy env4 cacheP (some (cacheP ++ ["IMAGES.TAR".toList]))
      (some (cacheP ++ ["meta.tar.gz".toList])) rfl rfl (by decide) (by decide)).1
    (cacheP ++ ["food-101.tar".toList]) (by decide)

/-! Claims C7, C8, C9, C10. -/

/-- C7 (corrected): finalization performs no copy exactly when the resolved
found directory equals the resolved target; otherwise it copies, and the
copy raises exactly when the target path already exists — whether or not
it is empty (with the default `dirs_exist_ok=False`, `shutil.copytree`
raises `FileExistsError` on any existing destination). -/
theorem c7_finalize (fs : FS) (found target : DirPath) :
    (finalizeActs fs found target = some [] ↔ fs.resolve found = fs.resolve target)
    ∧ (finalizeActs fs found target = none ↔
        (fs.resolve found ≠ fs.resolve target ∧ fs.pathExists target = true))
    ∧ (finalizeActs fs found target = some [Act.copy found target] ↔
        (fs.resolve found ≠ fs.resolve target ∧ fs.pathExists target = false)) := by
  by_cases h : fs.resolve found = fs.resolve target
  · simp [finalizeActs, h, copytreeActs]
  · by_cases he : fs.pathExists target = true
    · simp [finalizeActs, h, copytreeActs, he]
    · simp [finalizeActs, h, copytreeActs, he,
        Bool.not_eq_true (fs.pathExists target)]

/-- C7 counterexample: the target `out/images` exists but is empty, the
resolved paths differ, and the copy still fails — refuting "fails exactly
when the target already exists and is non-empty". -/
theorem c7_counterexample :
    finalizeActs fs7 (cacheP ++ [imagesN]) (outP ++ [imagesN]) = none
    ∧ fs7.pathExists (outP ++ [imagesN]) = true
    ∧ fs7.entries (outP ++ [imagesN]) = []
    ∧ fs7.resolve (cacheP ++ [imagesN]) ≠ fs7.resolve (outP ++ [imagesN]) := by
  decide

/-- C8 (corrected): with an existing target and no `--force`, the run
performs no filesystem mutation and exits cleanly — but with exit code 0,
the same code a success-with-work run exits with, not a distinct one; with
`--force` the target is removed first and the run proceeds. -/
theorem c8_skip_noop (env : Env) (cache : DirPath)
    (h1 : env.kagglehubAvailable = true)
    (h2 : env.downloadPath = some cache)
    (h3 : env.fs.pathExists env.out = true) :
    (env.force = false → mainModel env = .exit 0 [])
    ∧ (env.force = true →
        mainModel env = mainAfterOut env cache [Act.rmtree env.out]) := by
  constructor
  · intro hf; simp [mainModel, h1, h2, h3, hf]
  · intro hf; simp [mainModel, h1, h2, h3, hf]

theorem c8_witness :
    mainModel envSkip = Outcome.exit 0 []
    ∧ mainModel envForce = mainAfterOut envForce cacheP [Act.rmtree outP] :=
  ⟨(c8_skip_noop envSkip cacheP rfl rfl (by decide)).1 rfl,
   (c8_skip_noop envForce cacheP rfl rfl (by decide)).2 rfl⟩

/-- C8 counterexample: the skip run exits with code 0 and no mutations,
and a success-with-work run also exits with code 0 — the skip exit code is
not distinct from the success exit code. -/
theorem c8_counterexample :
    mainModel envSkip = Outcome.exit 0 []
    ∧ mainModel envWork = Outcome.exit 0
        [Act.mkdirs outP, Act.copy (cacheP ++ [imagesN]) (outP ++ [imagesN]),
         Act.copy (cacheP ++ [metaN]) (outP ++ [metaN])] := by
  decide

/-- C9: exit code 1 when kagglehub is unavailable (nothing written), 2 when
the download returns no usable path (nothing written), 0 on the no-op skip,
3 when the Content Pair layout is still unresolved after the extraction
attempts, and 0 on a success-with-work run. -/
theorem c9_exit_codes (env : Env) (cache : DirPath) :
    (env.kagglehubAvailable = false → mainModel env = .exit 1 [])
    ∧ (env.kagglehubAvailable = true → env.downloadPath = none →
        mainModel env = .exit 2 [])
    ∧ (env.kagglehubAvailable = true → env.downloadPath = some cache →
        env.fs.pathExists env.out = true → env.force = false →
        mainModel env = .exit 0 [])
    ∧ (env.kagglehubAvailable = true → env.downloadPath = some cache →
        env.fs.pathExists env.out = false →
        find_images_meta env.fs (candidateRoots env.fs cache) 3 = (none, none) →
        find_images_meta env.fsAfterExtract [env.out] 2 = (none, none) →
        mainModel env = .exit 3
          (Act.mkdirs env.out ::
            op2extracts (classifyArchives env.fs (candidateRoots env.fs cache)).1
              (classifyArchives env.fs (candidateRoots env.fs cache)).2.1
              (classifyArchives env.fs (candidateRoots env.fs cache)).2.2 env.out))
    ∧ (∀ (img met : DirPath) (a1 a2 : List Act),
        env.kagglehubAvailable = true → env.downloadPath = some cache →
        env.fs.pathExists env.out = false →
        find_images_meta env.fs (candidateRoots env.fs cache) 3 = (some img, some met) →
        finalizeActs env.fs img (env.out ++ [imagesN]) = some a1 →
        finalizeActs env.fs met (env.out ++ [metaN]) = some a2 →
        mainModel env = .exit 0 (Act.mkdirs env.out :: (a1 ++ a2))) := by
  refine ⟨?_, ?_, ?_, ?_, ?_⟩
  · intro h1; simp [mainModel, h1]
  · intro h1 h2; simp [mainModel, h1, h2]
  · intro h1 h2 h3 h4; simp [mainModel, h1, h2, h3, h4]
  · intro h1 h2 h3 h4 h5
    simp [mainModel, h1, h2, h3, mainAfterOut, h4, rerunStage, h5]
  · intro img met a1 a2 h1 h2 h3 h4 h5 h6
    simp [mainModel, h1, h2, h3, mainAfterOut, h4, finishUp, h5, h6]

theorem c9_witness :
    mainModel envNoKH = Outcome.exit 1 []
    ∧ mainModel envNoPath = Outcome.exit 2 []
    ∧ mainModel envSkip = Outcome.exit 0 []
    ∧ mainModel env4 = Outcome.exit 3
        [Act.mkdirs outP, Act.extract (cacheP ++ ["food-101.tar".toList]) outP]
    ∧ mainModel envWork = Outcome.exit 0
        [Act.mkdirs outP, Act.copy (cacheP ++ [imagesN]) (outP ++ [imagesN]),
         Act.copy (cacheP ++ [metaN]) (outP ++ [metaN])] :=
  ⟨(c9_exit_codes envNoKH cacheP).1 rfl,
   (c9_exit_codes envNoPath cacheP).2.1 rfl rfl,
   (c9_exit_codes envSkip cacheP).2.2.1 rfl rfl (by decide) rfl,
   ((c9_exit_codes env4 cacheP).2.2.2.1 rfl rfl (by decide) (by decide)
      (by decide)).trans (by decide),
   ((c9_exit_codes envWork cacheP).2.2.2.2 (cacheP ++ [imagesN]) (cacheP ++ [metaN])
      [Act.copy (cacheP ++ [imagesN]) (outP ++ [imagesN])]
      [Act.copy (cacheP ++ [metaN]) (outP ++ [metaN])]
      rfl rfl (by decide) (by decide) (by decide) (by decide)).trans (by decide)⟩

/-- C10 (corrected): provided the unconditional parent-directory creation
succeeds — it runs outside any `try` and raises for a path with an empty
directory part, or when creation fails — `utils_image_find` never raises:
an existing local path is returned unchanged regardless of the download
collaborator, an absent or empty url yields the not-found message, and a
failed download yields the in-band "Download failed: ..." string of the
same type as a successful path result. -/
theorem c10_in_band_errors (env : WebEnv) (p : Name) (u : Option Name)
    (hmk : makedirsSucceeds env (dirname p) = true) :
    (∀ m : Name, utils_image_find env p u ≠ .raised m)
    ∧ (env.pathExists p = true → utils_image_find env p u = .ret p)
    ∧ (∀ dl : Name → Name → Except Name Unit, env.pathExists p = true →
        utils_image_find (WebEnv.mk env.pathExists env.makedirsOk dl) p u = .ret p)
    ∧ (env.pathExists p = false → u = none →
        utils_image_find env p u = .ret "Image not found, add url argument".toList)
    ∧ (∀ (url e : Name), env.pathExists p = false → u = some url →
        url.isEmpty = false → env.download url p = .error e →
        utils_image_find env p u = .ret ("Download failed: ".toList ++ e))
    ∧ (∀ url : Name, env.pathExists p = false → u = some url →
        url.isEmpty = false → env.download url p = .ok () →
        utils_image_find env p u = .ret p) := by
  refine ⟨?_, ?_, ?_, ?_, ?_, ?_⟩
  · intro m
    by_cases hex : env.pathExists p = true
    · simp [utils_image_find, hmk, hex]
    · cases u with
      | none => simp [utils_image_find, hmk, hex]
      | some url =>
        by_cases hu : url.isEmpty = true
        · simp [utils_image_find, hmk, hex, hu]
        · cases hdl : env.download url p with
          | ok v => simp [utils_image_find, hmk, hex, hu, hdl]
          | error e => simp [utils_image_find, hmk, hex, hu, hdl]
  · intro hex; simp [utils_image_find, hmk, hex]
  · intro dl hex
    have hmk' : makedirsSucceeds (WebEnv.mk env.pathExists env.makedirsOk dl)
        (dirname p) = true := hmk
    simp [utils_image_find, hmk', hex]
  · intro hex hu; simp [utils_image_find, hmk, hex, hu]
  · intro url e hex hu hne hdl; simp [utils_image_find, hmk, hex, hu, hne, hdl]
  · intro url hex hu hne hdl; simp [utils_image_find, hmk, hex, hu, hne, hdl]

/-- C10 counterexample: for a bare filename the directory part is empty, so
the unconditional `os.makedirs` raises before anything else — even though
the local path exists and the claim promises it is returned unchanged and
that the function never raises. -/
theorem c10_counterexample :
    utils_image_find webEnvC ("img.jpg".toList) none =
      PyResult.raised ("OSError".toList) := by
  decide

theorem c10_witness :
    utils_image_find webEnvC ("dir/img.jpg".toList) none =
      PyResult.ret ("dir/img.jpg".toList)
    ∧ utils_image_find webEnvF ("dir/img.jpg".toList) (some ("http://x".toList)) =
      PyResult.ret ("Download failed: ".toList ++ "boom".toList) :=
  ⟨(c10_in_band_errors webEnvC ("dir/img.jpg".toList) none (by decide)).2.1 rfl,
   (c10_in_band_errors webEnvF ("dir/img.jpg".toList) (some ("http://x".toList))
      (by decide)).2.2.2.2.1 ("http://x".toList) ("boom".toList) rfl rfl
     (by decide) rfl⟩

end Food101
